import Mathlib

/-!
Verification of the user-store core of the `apirest` repository.

The embedding covers:
* `src/user.service.ts` — `MAX_USERS`, `validateId`, `isEmailTaken`,
  `hasReachedUserLimit`;
* `src/type.ts` / `src/response.ts` — the `ApiResponse` envelope and the
  `ok`/`created`/`notfound`/`badrequest`/`conflict`/`servererror` helpers;
* `src/app.ts` — the POST/PUT/DELETE `/users` route handlers over the
  in-memory `users` array and the monotonic `nextId` counter;
* the earlier variant (`services.ts` `Service` class and its Fastify app) —
  `create` with "max existing id + 1" allocation, `findById`, `deleteById`.
-/

set_option maxRecDepth 8000

namespace Apirest

/-- `User` record from `src/type.ts`: `{ id: number, name: string, email: string }`.
Ids are modelled as `Int` so that zero and negative id inputs are expressible. -/
structure User where
  id : Int
  name : String
  email : String
deriving Repr, DecidableEq

/-- `MAX_USERS = 999` from `src/user.service.ts`. -/
def MAX_USERS : Int := 999

/-- `validateId(id) = id > 0 && id <= MAX_USERS` from `src/user.service.ts`. -/
def validateId (id : Int) : Bool :=
  decide (id > 0) && decide (id ≤ MAX_USERS)

/-- JavaScript `toLowerCase`, i.e. Lean's `String.toLower` (each character
through `Char.toLower`), stated over the character list so that it reduces
inside the kernel; `jsLower_eq_toLower` below identifies the two. -/
def jsLower (s : String) : String :=
  ⟨s.data.map Char.toLower⟩

/-- `isEmailTaken(users, email, excludeId?)` from `src/user.service.ts`:
`users.some(u => u.email.toLowerCase() === email.toLowerCase() &&
(excludeId ? u.id !== excludeId : true))`.  The JavaScript truthiness test
`excludeId ?` is false for `undefined` (`none`) and for `0` (`some 0`). -/
def isEmailTaken (users : List User) (email : String) (excludeId : Option Int) : Bool :=
  users.any fun u =>
    (jsLower u.email == jsLower email) &&
    (match excludeId with
     | some eid => if eid == 0 then true else u.id != eid
     | none => true)

/-- `hasReachedUserLimit(users) = users.length >= MAX_USERS` from `src/user.service.ts`. -/
def hasReachedUserLimit (users : List User) : Bool :=
  decide ((users.length : Int) ≥ MAX_USERS)

/-- Payload carried in the `data` field of a response:
the handlers send `null`, a single user, or the user list. -/
inductive Payload where
  | nullData : Payload
  | user : User → Payload
  | users : List User → Payload
deriving Repr, DecidableEq

/-- `ApiResponse<T>` from `src/type.ts` together with the HTTP status code the
response helpers attach: `{ success, message, data?, error? }`.  `data : none`
models an absent `data` key, likewise for `error`. -/
structure ApiResponse where
  code : Nat
  success : Bool
  message : String
  data : Option Payload
  error : Option String
deriving Repr, DecidableEq

/-- `ok(reply, data, message)` from `src/response.ts`: 200, success envelope. -/
def ok (data : Payload) (message : String) : ApiResponse :=
  ⟨200, true, message, some data, none⟩

/-- `created(reply, data, message)` from `src/response.ts`: 201, success envelope. -/
def created (data : Payload) (message : String) : ApiResponse :=
  ⟨201, true, message, some data, none⟩

/-- `notfound(reply, message)` from `src/response.ts`: 404, failure envelope
with fixed error detail `'Resource not found'`. -/
def notfound (message : String) : ApiResponse :=
  ⟨404, false, message, none, some "Resource not found"⟩

/-- `badrequest(reply, error)` from `src/response.ts` with its default message
`'Bad Request'` (all call sites in `app.ts` use the default). -/
def badrequest (error : String) : ApiResponse :=
  ⟨400, false, "Bad Request", none, some error⟩

/-- `conflict(reply, error)` from `src/response.ts` with its default message
`'Conflict'`. -/
def conflict (error : String) : ApiResponse :=
  ⟨409, false, "Conflict", none, some error⟩

/-- `servererror(reply, error)` from `src/response.ts` with its default message
`'Error'`. -/
def servererror (error : String) : ApiResponse :=
  ⟨500, false, "Error", none, some error⟩

/-- The module-level mutable state of `src/app.ts`:
`let users: User[] = []` and `let nextId = 1`. -/
structure AppState where
  users : List User
  nextId : Int
deriving Repr, DecidableEq

/-- Initial state of `src/app.ts`. -/
def initialState : AppState := ⟨[], 1⟩

/-- JavaScript truthiness of an optional string (`undefined` and `''` are falsy),
as used by `if (email && isEmailTaken(...))` in the PUT handler. -/
def strTruthy : Option String → Bool
  | none => false
  | some s => s != ""

/-- Mutate the first list element whose id matches, in place; the PUT handler's
`users.find(u => u.id === id)` followed by field assignment touches exactly
that object. -/
def updateFirst (users : List User) (id : Int) (f : User → User) : List User :=
  match users with
  | [] => []
  | u :: rest => if u.id == id then f u :: rest else u :: updateFirst rest id f

/-- `findIndex` + `splice(index, 1)`: remove the first element satisfying `p`,
returning it (or `none`) together with the remaining list. -/
def removeFirstBy {α : Type} (p : α → Bool) : List α → Option α × List α
  | [] => (none, [])
  | u :: rest =>
    if p u then (some u, rest)
    else
      let r := removeFirstBy p rest
      (r.1, u :: r.2)

/-- `POST /users` handler from `src/app.ts`: limit check, duplicate-email
check, then `{ id: nextId++, name, email }` and `validateId` on the fresh id;
`nextId` is incremented even when the id check then fails. -/
def postUsers (st : AppState) (name email : String) : ApiResponse × AppState :=
  if hasReachedUserLimit st.users then
    (badrequest "Cannot register more users: memory limit reached", st)
  else if isEmailTaken st.users email none then
    (conflict "Email already registered", st)
  else
    let newUser : User := ⟨st.nextId, name, email⟩
    if !validateId newUser.id then
      (badrequest "User ID exceeds maximum allowed value", ⟨st.users, st.nextId + 1⟩)
    else
      (created (Payload.user newUser) "User created successfully",
       ⟨st.users ++ [newUser], st.nextId + 1⟩)

/-- `PUT /users/:id` handler from `src/app.ts`. -/
def putUsers (st : AppState) (id : Int) (nameOpt emailOpt : Option String) :
    ApiResponse × AppState :=
  if !validateId id then
    (badrequest "Invalid user ID", st)
  else
    match st.users.find? (fun u => u.id == id) with
    | none => (notfound "User not found", st)
    | some user =>
      if strTruthy emailOpt && isEmailTaken st.users (emailOpt.getD "") (some id) then
        (conflict "Email already registered", st)
      else
        let updated : User := ⟨user.id, nameOpt.getD user.name, emailOpt.getD user.email⟩
        (ok (Payload.user updated) "User updated successfully",
         ⟨updateFirst st.users id
            (fun u => ⟨u.id, nameOpt.getD u.name, emailOpt.getD u.email⟩), st.nextId⟩)

/-- `DELETE /users/:id` handler from `src/app.ts`. -/
def deleteUsers (st : AppState) (id : Int) : ApiResponse × AppState :=
  if !validateId id then
    (badrequest "Invalid user ID", st)
  else
    match removeFirstBy (fun u => u.id == id) st.users with
    | (none, _) => (notfound "User not found", st)
    | (some deleted, rest) =>
      (ok (Payload.user deleted) "User deleted successfully", ⟨rest, st.nextId⟩)

/-- `GET /users` handler from `src/app.ts`: always succeeds with the list. -/
def getUsers (st : AppState) : ApiResponse :=
  ok (Payload.users st.users) "List of users"

/-- One store operation of `src/app.ts` (the three mutating routes). -/
inductive Op where
  | create (name email : String) : Op
  | update (id : Int) (nameOpt emailOpt : Option String) : Op
  | delete (id : Int) : Op
deriving Repr, DecidableEq

/-- State transition of one operation (the response is discarded). -/
def step (st : AppState) : Op → AppState
  | Op.create n e => (postUsers st n e).2
  | Op.update i n e => (putUsers st i n e).2
  | Op.delete i => (deleteUsers st i).2

/-- Run a sequence of operations from a given state. -/
def runFrom (st : AppState) (ops : List Op) : AppState :=
  ops.foldl step st

/-- Run a sequence of operations from the initial state of `src/app.ts`. -/
def run (ops : List Op) : AppState :=
  runFrom initialState ops

/-- Structural well-formedness the Fastify schemas guarantee before a handler
runs: `updateUserSchema` requires `email` to match `^[^\s@]+@[^\s@]+\.[^\s@]+$`,
so a supplied email is never the empty string.  Only this consequence of the
schema is needed. -/
def opSchemaOk : Op → Prop
  | Op.create _ e => e ≠ ""
  | Op.update _ _ (some e) => e ≠ ""
  | Op.update _ _ none => True
  | Op.delete _ => True

/-! ### The earlier `Service` variant (`services.ts` and its Fastify app)

The `Service` class stores generic `Item` records; the user collection holds
records of the `User` shape, every one of which carries a numeric `id` (the
class itself injects it on `create`), so the collection is modelled as
`List User`. -/

/-- `Service.create` on the users collection: allocate
`collection.length > 0 ? Math.max(...ids) + 1 : 1`, spread the body into a new
record with that id, and push it.  (`typeof collection[0].id === 'number'` is
always true for records of the `User` shape.)  Returns the new record and the
updated collection. -/
def svcCreate (collection : List User) (name email : String) : User × List User :=
  let id : Int :=
    match collection with
    | [] => 1
    | u :: rest => rest.foldl (fun a v => max a v.id) u.id + 1
  let newItem : User := ⟨id, name, email⟩
  (newItem, collection ++ [newItem])

/-- `Service.findById` on a collection other than `'categories'` (the dishes
enrichment branch applies only to that collection): first record whose id
matches, or `undefined`. -/
def svcFindById (collection : List User) (id : Int) : Option User :=
  collection.find? fun u => u.id == id

/-- `Service.deleteById` on the users collection: `findIndex` then
`splice(index, 1)`; returns the removed record (or `none`) and the remaining
collection. -/
def svcDeleteById (collection : List User) (id : Int) : Option User × List User :=
  removeFirstBy (fun u => u.id == id) collection

/-- Responses of the earlier variant's routes (`{error: 'Data not found'}`
with 404, or the bare item with 200). -/
inductive VariantResp where
  | found : User → VariantResp
  | dataNotFound : VariantResp
deriving Repr, DecidableEq

/-- `GET /:name/:id` handler of the earlier variant: the route schema only
constrains `id` to the digit pattern `^[0-9]+$` (so `numId ≥ 0`, with no upper
bound); the handler calls `findById` and answers 404 `Data not found` when it
is `undefined` (a found object is always truthy). -/
def getByIdRoute (collection : List User) (id : Int) : VariantResp :=
  match svcFindById collection id with
  | some item => VariantResp.found item
  | none => VariantResp.dataNotFound

/-! ### Concrete states used by witnesses and counterexamples -/

/-- A collection of 999 users with ids `1..999` and pairwise distinct emails
`u0@example.com` … `u998@example.com`, as produced by 999 successful creates. -/
def mk999 : List User :=
  (List.range 999).map fun i =>
    ⟨Int.ofNat i + 1, "user", "u" ++ toString i ++ "@example.com"⟩

/-- The store at capacity: 999 records, `nextId = 1000`. -/
def fullState : AppState := ⟨mk999, 1000⟩

/-! ## Basic lemmas about the service helpers -/

/-- `jsLower` is exactly `String.toLower` (JavaScript `toLowerCase` for the
basic-latin alphabet). -/
theorem jsLower_eq_toLower (s : String) : s.toLower = jsLower s :=
  String.map_eq Char.toLower s

theorem validateId_iff (id : Int) : validateId id = true ↔ 0 < id ∧ id ≤ 999 := by
  simp [validateId, MAX_USERS]

theorem validateId_eq_false_iff (id : Int) :
    validateId id = false ↔ id ≤ 0 ∨ 999 < id := by
  rw [← Bool.not_eq_true, validateId_iff]
  omega

theorem hasReachedUserLimit_iff (users : List User) :
    hasReachedUserLimit users = true ↔ 999 ≤ users.length := by
  simp only [hasReachedUserLimit, MAX_USERS, decide_eq_true_eq, ge_iff_le]
  omega

theorem hasReachedUserLimit_eq_false_iff (users : List User) :
    hasReachedUserLimit users = false ↔ users.length ≤ 998 := by
  rw [← Bool.not_eq_true, hasReachedUserLimit_iff]
  omega

theorem isEmailTaken_none_iff (users : List User) (email : String) :
    isEmailTaken users email none = true ↔
      ∃ u ∈ users, jsLower u.email = jsLower email := by
  simp [isEmailTaken]

theorem isEmailTaken_none_eq_false_iff (users : List User) (email : String) :
    isEmailTaken users email none = false ↔
      ∀ u ∈ users, jsLower u.email ≠ jsLower email := by
  rw [← Bool.not_eq_true, isEmailTaken_none_iff]
  push_neg
  rfl

theorem isEmailTaken_some_iff (users : List User) (email : String) (eid : Int)
    (h : eid ≠ 0) :
    isEmailTaken users email (some eid) = true ↔
      ∃ u ∈ users, jsLower u.email = jsLower email ∧ u.id ≠ eid := by
  have heid : (eid == 0) = false := by simpa using h
  simp [isEmailTaken, heid]

theorem isEmailTaken_some_eq_false_iff (users : List User) (email : String) (eid : Int)
    (h : eid ≠ 0) :
    isEmailTaken users email (some eid) = false ↔
      ∀ u ∈ users, jsLower u.email = jsLower email → u.id = eid := by
  rw [← Bool.not_eq_true, isEmailTaken_some_iff users email eid h]
  push_neg
  tauto

/-! ## Branch lemmas for the three mutating handlers -/

theorem postUsers_limit {st : AppState} (n e : String)
    (h : hasReachedUserLimit st.users = true) :
    postUsers st n e = (badrequest "Cannot register more users: memory limit reached", st) := by
  simp [postUsers, h]

theorem postUsers_conflict {st : AppState} (n e : String)
    (h1 : hasReachedUserLimit st.users = false)
    (h2 : isEmailTaken st.users e none = true) :
    postUsers st n e = (conflict "Email already registered", st) := by
  simp [postUsers, h1, h2]

theorem postUsers_idfail {st : AppState} (n e : String)
    (h1 : hasReachedUserLimit st.users = false)
    (h2 : isEmailTaken st.users e none = false)
    (h3 : validateId st.nextId = false) :
    postUsers st n e =
      (badrequest "User ID exceeds maximum allowed value", ⟨st.users, st.nextId + 1⟩) := by
  simp [postUsers, h1, h2, h3]

theorem postUsers_success {st : AppState} (n e : String)
    (h1 : hasReachedUserLimit st.users = false)
    (h2 : isEmailTaken st.users e none = false)
    (h3 : validateId st.nextId = true) :
    postUsers st n e =
      (created (Payload.user ⟨st.nextId, n, e⟩) "User created successfully",
       ⟨st.users ++ [⟨st.nextId, n, e⟩], st.nextId + 1⟩) := by
  simp [postUsers, h1, h2, h3]

theorem putUsers_invalid {st : AppState} (id : Int) (nameOpt emailOpt : Option String)
    (h : validateId id = false) :
    putUsers st id nameOpt emailOpt = (badrequest "Invalid user ID", st) := by
  simp [putUsers, h]

theorem putUsers_notfound {st : AppState} (id : Int) (nameOpt emailOpt : Option String)
    (h : validateId id = true)
    (h2 : st.users.find? (fun u => u.id == id) = none) :
    putUsers st id nameOpt emailOpt = (notfound "User not found", st) := by
  simp [putUsers, h, h2]

theorem putUsers_conflict {st : AppState} {id : Int} (nameOpt : Option String)
    {emailOpt : Option String} {u : User}
    (h : validateId id = true)
    (h2 : st.users.find? (fun v => v.id == id) = some u)
    (h3 : strTruthy emailOpt = true)
    (h4 : isEmailTaken st.users (emailOpt.getD "") (some id) = true) :
    putUsers st id nameOpt emailOpt = (conflict "Email already registered", st) := by
  simp [putUsers, h, h2, h3, h4]

theorem putUsers_ok {st : AppState} {id : Int} (nameOpt : Option String)
    {emailOpt : Option String} {u : User}
    (h : validateId id = true)
    (h2 : st.users.find? (fun v => v.id == id) = some u)
    (h3 : (strTruthy emailOpt && isEmailTaken st.users (emailOpt.getD "") (some id)) = false) :
    putUsers st id nameOpt emailOpt =
      (ok (Payload.user ⟨u.id, nameOpt.getD u.name, emailOpt.getD u.email⟩)
         "User updated successfully",
       ⟨updateFirst st.users id
          (fun v => ⟨v.id, nameOpt.getD v.name, emailOpt.getD v.email⟩), st.nextId⟩) := by
  simp [putUsers, h, h2, h3]

theorem deleteUsers_invalid {st : AppState} (id : Int)
    (h : validateId id = false) :
    deleteUsers st id = (badrequest "Invalid user ID", st) := by
  simp [deleteUsers, h]

theorem deleteUsers_notfound {st : AppState} {id : Int} {rest : List User}
    (h : validateId id = true)
    (h2 : removeFirstBy (fun u => u.id == id) st.users = (none, rest)) :
    deleteUsers st id = (notfound "User not found", st) := by
  simp [deleteUsers, h, h2]

theorem deleteUsers_ok {st : AppState} {id : Int} {u : User} {rest : List User}
    (h : validateId id = true)
    (h2 : removeFirstBy (fun v => v.id == id) st.users = (some u, rest)) :
    deleteUsers st id =
      (ok (Payload.user u) "User deleted successfully", ⟨rest, st.nextId⟩) := by
  simp [deleteUsers, h, h2]

/-! ## Lemmas about `updateFirst`, `removeFirstBy` and `find?` -/

theorem updateFirst_map {β : Type} (g : User → β) (f : User → User) (id : Int)
    (hg : ∀ u, g (f u) = g u) (l : List User) :
    (updateFirst l id f).map g = l.map g := by
  induction l with
  | nil => rfl
  | cons u rest ih =>
    cases h : u.id == id <;> simp [updateFirst, h, hg, ih]

theorem updateFirst_length (f : User → User) (id : Int) (l : List User) :
    (updateFirst l id f).length = l.length := by
  induction l with
  | nil => rfl
  | cons u rest ih =>
    cases h : u.id == id <;> simp [updateFirst, h, ih]

theorem mem_updateFirst {f : User → User} {id : Int} {l : List User} {w : User}
    (hw : w ∈ updateFirst l id f) :
    w ∈ l ∨ ∃ v, v ∈ l ∧ v.id = id ∧ w = f v := by
  induction l with
  | nil => simp [updateFirst] at hw
  | cons u rest ih =>
    by_cases h : (u.id == id) = true
    · rw [updateFirst, if_pos h] at hw
      rcases List.mem_cons.mp hw with hw | hw
      · exact Or.inr ⟨u, List.mem_cons_self u rest, by simpa using h, hw⟩
      · exact Or.inl (List.mem_cons_of_mem u hw)
    · rw [updateFirst, if_neg h] at hw
      rcases List.mem_cons.mp hw with hw | hw
      · exact Or.inl (hw ▸ List.mem_cons_self u rest)
      · rcases ih hw with hmem | ⟨v, hv, hvid, hwv⟩
        · exact Or.inl (List.mem_cons_of_mem u hmem)
        · exact Or.inr ⟨v, List.mem_cons_of_mem u hv, hvid, hwv⟩

theorem updateFirst_append (f : User → User) {id : Int} {l₁ l₂ : List User} {u : User}
    (h1 : ∀ v ∈ l₁, (v.id == id) = false) (h2 : (u.id == id) = true) :
    updateFirst (l₁ ++ u :: l₂) id f = l₁ ++ f u :: l₂ := by
  induction l₁ with
  | nil => simp [updateFirst, h2]
  | cons v rest ih =>
    have hv := h1 v (List.mem_cons_self v rest)
    have ih2 := ih fun w hw => h1 w (List.mem_cons_of_mem v hw)
    simp [updateFirst, hv, ih2]

theorem removeFirstBy_none {α : Type} {p : α → Bool} {l : List α}
    (h : ∀ v ∈ l, p v = false) : removeFirstBy p l = (none, l) := by
  induction l with
  | nil => rfl
  | cons u rest ih =>
    have hu := h u (List.mem_cons_self u rest)
    have ih2 := ih fun w hw => h w (List.mem_cons_of_mem u hw)
    simp [removeFirstBy, hu, ih2]

theorem removeFirstBy_append {α : Type} {p : α → Bool} {l₁ l₂ : List α} {u : α}
    (h1 : ∀ v ∈ l₁, p v = false) (h2 : p u = true) :
    removeFirstBy p (l₁ ++ u :: l₂) = (some u, l₁ ++ l₂) := by
  induction l₁ with
  | nil => simp [removeFirstBy, h2]
  | cons v rest ih =>
    have hv := h1 v (List.mem_cons_self v rest)
    have ih2 := ih fun w hw => h1 w (List.mem_cons_of_mem v hw)
    simp [removeFirstBy, hv, ih2]

theorem removeFirstBy_sublist {α : Type} (p : α → Bool) (l : List α) :
    (removeFirstBy p l).2.Sublist l := by
  induction l with
  | nil => exact List.Sublist.refl []
  | cons u rest ih =>
    by_cases h : p u = true
    · rw [removeFirstBy, if_pos h]
      exact List.sublist_cons_self u rest
    · rw [removeFirstBy, if_neg h]
      exact List.Sublist.cons₂ u ih

theorem find?_split {p : User → Bool} {u : User} {l : List User}
    (h : l.find? p = some u) :
    ∃ l₁ l₂, l = l₁ ++ u :: l₂ ∧ (∀ v ∈ l₁, p v = false) ∧ p u = true := by
  induction l with
  | nil => simp at h
  | cons v rest ih =>
    by_cases hv : p v = true
    · rw [List.find?_cons_of_pos _ hv] at h
      exact ⟨[], rest, by simpa using (Option.some.inj h) ▸ rfl, by simp,
        (Option.some.inj h) ▸ hv⟩
    · rw [List.find?_cons_of_neg _ hv] at h
      obtain ⟨l₁, l₂, heq, hall, hu⟩ := ih h
      exact ⟨v :: l₁, l₂, by simp [heq], by
        intro w hw
        rcases List.mem_cons.mp hw with hw | hw
        · exact hw ▸ Bool.eq_false_iff.mpr hv
        · exact hall w hw, hu⟩

theorem find?_eq_none_of_all {p : User → Bool} {l : List User}
    (h : ∀ v ∈ l, p v = false) : l.find? p = none :=
  List.find?_eq_none.mpr fun v hv => by simp [h v hv]

/-! ## The store invariant and its preservation -/

/-- The invariant of the `src/app.ts` store: pairwise distinct lowercased
emails, pairwise distinct ids, every id in `1..MAX_USERS` and below the
counter, and the collection within capacity. -/
structure Inv (st : AppState) : Prop where
  emailsNodup : st.users.Pairwise fun a b => jsLower a.email ≠ jsLower b.email
  idsNodup : st.users.Pairwise fun a b => a.id ≠ b.id
  idsRange : ∀ u ∈ st.users, 0 < u.id ∧ u.id ≤ 999
  idsLtNext : ∀ u ∈ st.users, u.id < st.nextId
  sizeLe : st.users.length ≤ 999

theorem inv_initial : Inv initialState := by
  constructor <;> simp [initialState]

theorem inv_create {st : AppState} (h : Inv st) (n e : String) :
    Inv (postUsers st n e).2 := by
  by_cases h1 : hasReachedUserLimit st.users = true
  · rw [postUsers_limit n e h1]
    exact h
  · replace h1 : hasReachedUserLimit st.users = false := by
      simpa using h1
    by_cases h2 : isEmailTaken st.users e none = true
    · rw [postUsers_conflict n e h1 h2]
      exact h
    · replace h2 : isEmailTaken st.users e none = false := by
        simpa using h2
      by_cases h3 : validateId st.nextId = true
      · rw [postUsers_success n e h1 h2 h3]
        have hfresh : ∀ u ∈ st.users, jsLower u.email ≠ jsLower e :=
          (isEmailTaken_none_eq_false_iff st.users e).mp h2
        have hrange := (validateId_iff st.nextId).mp h3
        dsimp only
        refine ⟨?_, ?_, ?_, ?_, ?_⟩
        · rw [List.pairwise_append]
          exact ⟨h.emailsNodup, List.pairwise_singleton _ _,
            fun a ha b hb => by
              rw [List.mem_singleton.mp hb]
              exact hfresh a ha⟩
        · rw [List.pairwise_append]
          exact ⟨h.idsNodup, List.pairwise_singleton _ _,
            fun a ha b hb => by
              rw [List.mem_singleton.mp hb]
              exact Int.ne_of_lt (h.idsLtNext a ha)⟩
        · intro u hu
          rcases List.mem_append.mp hu with hu | hu
          · exact h.idsRange u hu
          · rw [List.mem_singleton.mp hu]
            exact hrange
        · intro u hu
          show u.id < st.nextId + 1
          rcases List.mem_append.mp hu with hu | hu
          · have hlt := h.idsLtNext u hu
            omega
          · rw [List.mem_singleton.mp hu]
            show st.nextId < st.nextId + 1
            omega
        · have hlen := (hasReachedUserLimit_eq_false_iff st.users).mp h1
          simp only [List.length_append, List.length_singleton]
          omega
      · replace h3 : validateId st.nextId = false := by
          simpa using h3
        rw [postUsers_idfail n e h1 h2 h3]
        refine ⟨h.emailsNodup, h.idsNodup, h.idsRange, ?_, h.sizeLe⟩
        intro u hu
        exact lt_trans (h.idsLtNext u hu) (show st.nextId < st.nextId + 1 by omega)

/-- If every email that lowercase-matches `e` belongs to the record with the
given id, rewriting the first record with that id to an email that lowers to
`e` keeps lowercased emails pairwise distinct. -/
theorem pairwise_emails_updateFirst {l : List User} {id : Int} {f : User → User} {e : String}
    (hf : ∀ v, jsLower (f v).email = jsLower e)
    (hemails : l.Pairwise fun a b => jsLower a.email ≠ jsLower b.email)
    (hids : l.Pairwise fun a b => a.id ≠ b.id)
    (htaken : ∀ u ∈ l, jsLower u.email = jsLower e → u.id = id) :
    (updateFirst l id f).Pairwise fun a b => jsLower a.email ≠ jsLower b.email := by
  induction l with
  | nil => exact List.Pairwise.nil
  | cons u rest ih =>
    rw [List.pairwise_cons] at hemails hids
    obtain ⟨hue, hrest⟩ := hemails
    obtain ⟨hui, hirest⟩ := hids
    by_cases h : (u.id == id) = true
    · rw [updateFirst, if_pos h]
      refine List.pairwise_cons.mpr ⟨?_, hrest⟩
      intro b hb
      rw [hf u]
      intro heq
      have hbid : b.id = id := htaken b (List.mem_cons_of_mem u hb) heq.symm
      have huid : u.id = id := by simpa using h
      exact hui b hb (huid.trans hbid.symm)
    · rw [updateFirst, if_neg h]
      refine List.pairwise_cons.mpr
        ⟨?_, ih hrest hirest fun w hw hwe => htaken w (List.mem_cons_of_mem u hw) hwe⟩
      intro b hb
      rcases mem_updateFirst hb with hbmem | ⟨v, _, _, hbv⟩
      · exact hue b hbmem
      · rw [hbv, hf v]
        intro hcontra
        exact h (by simpa using htaken u (List.mem_cons_self u rest) hcontra)

/-- Transport a pairwise relation through a projection. -/
theorem pairwise_of_map {β : Type} (g : User → β) {R : β → β → Prop} {l : List User}
    (h : (l.map g).Pairwise R) : l.Pairwise fun a b => R (g a) (g b) :=
  List.pairwise_map.mp h

/-- Converse transport of a pairwise relation through a projection. -/
theorem map_of_pairwise {β : Type} (g : User → β) {R : β → β → Prop} {l : List User}
    (h : l.Pairwise fun a b => R (g a) (g b)) : (l.map g).Pairwise R :=
  List.pairwise_map.mpr h

theorem inv_update {st : AppState} (h : Inv st) (id : Int)
    (nameOpt emailOpt : Option String)
    (hschema : opSchemaOk (Op.update id nameOpt emailOpt)) :
    Inv (putUsers st id nameOpt emailOpt).2 := by
  by_cases hv : validateId id = true
  · cases hfind : st.users.find? (fun u => u.id == id) with
    | none =>
      rw [putUsers_notfound id nameOpt emailOpt hv hfind]
      exact h
    | some u =>
      by_cases hc : (strTruthy emailOpt && isEmailTaken st.users (emailOpt.getD "") (some id)) = true
      · have hcc : strTruthy emailOpt = true ∧
            isEmailTaken st.users (emailOpt.getD "") (some id) = true := by
          simpa using hc
        rw [putUsers_conflict nameOpt hv hfind hcc.1 hcc.2]
        exact h
      · replace hc : (strTruthy emailOpt && isEmailTaken st.users (emailOpt.getD "") (some id)) = false := by
          simpa using hc
        rw [putUsers_ok nameOpt hv hfind hc]
        have hfid : ∀ v : User,
            (User.mk v.id (nameOpt.getD v.name) (emailOpt.getD v.email)).id = v.id :=
          fun v => rfl
        have hmapid : (updateFirst st.users id
              (fun v => ⟨v.id, nameOpt.getD v.name, emailOpt.getD v.email⟩)).map User.id =
            st.users.map User.id :=
          updateFirst_map User.id _ id hfid st.users
        refine ⟨?_, ?_, ?_, ?_, ?_⟩
        · cases hemail : emailOpt with
          | none =>
            have hmape : (updateFirst st.users id
                  (fun v => ⟨v.id, nameOpt.getD v.name, (none : Option String).getD v.email⟩)).map
                    (fun v => jsLower v.email) =
                st.users.map (fun v => jsLower v.email) :=
              updateFirst_map (fun v => jsLower v.email)
                (fun v => ⟨v.id, nameOpt.getD v.name, (none : Option String).getD v.email⟩)
                id (fun v => rfl) st.users
            refine pairwise_of_map (fun v => jsLower v.email) ?_
            rw [hmape]
            exact map_of_pairwise _ h.emailsNodup
          | some e =>
            have he : e ≠ "" := by
              rw [hemail] at hschema
              exact hschema
            have htr : strTruthy (some e) = true := by simpa [strTruthy] using he
            have htaken : isEmailTaken st.users e (some id) = false := by
              rw [hemail] at hc
              simpa [htr] using hc
            have hid0 : id ≠ 0 := by
              have := (validateId_iff id).mp hv
              omega
            refine pairwise_emails_updateFirst (fun v => rfl) h.emailsNodup h.idsNodup ?_
            exact (isEmailTaken_some_eq_false_iff st.users e id hid0).mp htaken
        · refine pairwise_of_map User.id ?_
          rw [hmapid]
          exact map_of_pairwise _ h.idsNodup
        · intro w hw
          rcases mem_updateFirst hw with hmem | ⟨v, hvmem, _, hwv⟩
          · exact h.idsRange w hmem
          · rw [hwv]
            exact h.idsRange v hvmem
        · intro w hw
          show w.id < st.nextId
          rcases mem_updateFirst hw with hmem | ⟨v, hvmem, _, hwv⟩
          · exact h.idsLtNext w hmem
          · rw [hwv]
            exact h.idsLtNext v hvmem
        · show (updateFirst st.users id _).length ≤ 999
          rw [updateFirst_length]
          exact h.sizeLe
  · replace hv : validateId id = false := by simpa using hv
    rw [putUsers_invalid id nameOpt emailOpt hv]
    exact h

theorem inv_delete {st : AppState} (h : Inv st) (id : Int) :
    Inv (deleteUsers st id).2 := by
  by_cases hv : validateId id = true
  · cases hrem : removeFirstBy (fun u => u.id == id) st.users with
    | mk o rest =>
      cases o with
      | none =>
        rw [deleteUsers_notfound hv hrem]
        exact h
      | some u =>
        rw [deleteUsers_ok hv hrem]
        have hsub : rest.Sublist st.users := by
          have := removeFirstBy_sublist (fun u => u.id == id) st.users
          rw [hrem] at this
          exact this
        refine ⟨h.emailsNodup.sublist hsub, h.idsNodup.sublist hsub, ?_, ?_, ?_⟩
        · exact fun w hw => h.idsRange w (hsub.mem hw)
        · exact fun w hw => h.idsLtNext w (hsub.mem hw)
        · exact le_trans hsub.length_le h.sizeLe
  · replace hv : validateId id = false := by simpa using hv
    rw [deleteUsers_invalid id hv]
    exact h

theorem inv_step {st : AppState} {op : Op} (h : Inv st) (hschema : opSchemaOk op) :
    Inv (step st op) := by
  cases op with
  | create n e => exact inv_create h n e
  | update i n? e? => exact inv_update h i n? e? hschema
  | delete i => exact inv_delete h i

theorem inv_runFrom {st : AppState} (h : Inv st) (ops : List Op)
    (hschema : ∀ op ∈ ops, opSchemaOk op) : Inv (runFrom st ops) := by
  induction ops generalizing st with
  | nil => exact h
  | cons op rest ih =>
    exact ih (inv_step h (hschema op (List.mem_cons_self op rest)))
      fun o ho => hschema o (List.mem_cons_of_mem op ho)

theorem inv_run (ops : List Op) (hschema : ∀ op ∈ ops, opSchemaOk op) :
    Inv (run ops) :=
  inv_runFrom inv_initial ops hschema

/-! ## Total case analyses of the three handlers -/

theorem postUsers_cases (st : AppState) (n e : String) :
    (hasReachedUserLimit st.users = true ∧
     postUsers st n e = (badrequest "Cannot register more users: memory limit reached", st)) ∨
    (hasReachedUserLimit st.users = false ∧ isEmailTaken st.users e none = true ∧
     postUsers st n e = (conflict "Email already registered", st)) ∨
    (hasReachedUserLimit st.users = false ∧ isEmailTaken st.users e none = false ∧
     validateId st.nextId = false ∧
     postUsers st n e =
       (badrequest "User ID exceeds maximum allowed value", ⟨st.users, st.nextId + 1⟩)) ∨
    (hasReachedUserLimit st.users = false ∧ isEmailTaken st.users e none = false ∧
     validateId st.nextId = true ∧
     postUsers st n e =
       (created (Payload.user ⟨st.nextId, n, e⟩) "User created successfully",
        ⟨st.users ++ [⟨st.nextId, n, e⟩], st.nextId + 1⟩)) := by
  by_cases h1 : hasReachedUserLimit st.users = true
  · exact Or.inl ⟨h1, postUsers_limit n e h1⟩
  · replace h1 : hasReachedUserLimit st.users = false := by simpa using h1
    by_cases h2 : isEmailTaken st.users e none = true
    · exact Or.inr (Or.inl ⟨h1, h2, postUsers_conflict n e h1 h2⟩)
    · replace h2 : isEmailTaken st.users e none = false := by simpa using h2
      by_cases h3 : validateId st.nextId = true
      · exact Or.inr (Or.inr (Or.inr ⟨h1, h2, h3, postUsers_success n e h1 h2 h3⟩))
      · replace h3 : validateId st.nextId = false := by simpa using h3
        exact Or.inr (Or.inr (Or.inl ⟨h1, h2, h3, postUsers_idfail n e h1 h2 h3⟩))

theorem putUsers_cases (st : AppState) (id : Int) (nameOpt emailOpt : Option String) :
    (validateId id = false ∧
     putUsers st id nameOpt emailOpt = (badrequest "Invalid user ID", st)) ∨
    (validateId id = true ∧ st.users.find? (fun v => v.id == id) = none ∧
     putUsers st id nameOpt emailOpt = (notfound "User not found", st)) ∨
    (validateId id = true ∧
     (strTruthy emailOpt && isEmailTaken st.users (emailOpt.getD "") (some id)) = true ∧
     putUsers st id nameOpt emailOpt = (conflict "Email already registered", st)) ∨
    (validateId id = true ∧
     (strTruthy emailOpt && isEmailTaken st.users (emailOpt.getD "") (some id)) = false ∧
     ∃ u, st.users.find? (fun v => v.id == id) = some u ∧
      putUsers st id nameOpt emailOpt =
        (ok (Payload.user ⟨u.id, nameOpt.getD u.name, emailOpt.getD u.email⟩)
           "User updated successfully",
         ⟨updateFirst st.users id
            (fun v => ⟨v.id, nameOpt.getD v.name, emailOpt.getD v.email⟩), st.nextId⟩)) := by
  by_cases hv : validateId id = true
  · cases hfind : st.users.find? (fun v => v.id == id) with
    | none => exact Or.inr (Or.inl ⟨hv, rfl, putUsers_notfound id nameOpt emailOpt hv hfind⟩)
    | some u =>
      by_cases hc : (strTruthy emailOpt &&
          isEmailTaken st.users (emailOpt.getD "") (some id)) = true
      · have hcc : strTruthy emailOpt = true ∧
            isEmailTaken st.users (emailOpt.getD "") (some id) = true := by
          simpa using hc
        exact Or.inr (Or.inr (Or.inl ⟨hv, hc, putUsers_conflict nameOpt hv hfind hcc.1 hcc.2⟩))
      · replace hc : (strTruthy emailOpt &&
            isEmailTaken st.users (emailOpt.getD "") (some id)) = false := by
          simpa using hc
        exact Or.inr (Or.inr (Or.inr ⟨hv, hc, u, rfl, putUsers_ok nameOpt hv hfind hc⟩))
  · replace hv : validateId id = false := by simpa using hv
    exact Or.inl ⟨hv, putUsers_invalid id nameOpt emailOpt hv⟩

theorem deleteUsers_cases (st : AppState) (id : Int) :
    (validateId id = false ∧
     deleteUsers st id = (badrequest "Invalid user ID", st)) ∨
    (validateId id = true ∧
     deleteUsers st id = (notfound "User not found", st)) ∨
    (validateId id = true ∧
     ∃ u rest, removeFirstBy (fun v => v.id == id) st.users = (some u, rest) ∧
      deleteUsers st id =
        (ok (Payload.user u) "User deleted successfully", ⟨rest, st.nextId⟩)) := by
  by_cases hv : validateId id = true
  · cases hrem : removeFirstBy (fun v => v.id == id) st.users with
    | mk o rest =>
      cases o with
      | none => exact Or.inr (Or.inl ⟨hv, deleteUsers_notfound hv hrem⟩)
      | some u => exact Or.inr (Or.inr ⟨hv, u, rest, rfl, deleteUsers_ok hv hrem⟩)
  · replace hv : validateId id = false := by simpa using hv
    exact Or.inl ⟨hv, deleteUsers_invalid id hv⟩

/-! ## Counter monotonicity, freed ids, and counter exhaustion -/

theorem step_nextId_mono (st : AppState) (op : Op) : st.nextId ≤ (step st op).nextId := by
  cases op with
  | create n e =>
    show st.nextId ≤ (postUsers st n e).2.nextId
    rcases postUsers_cases st n e with ⟨_, h⟩ | ⟨_, _, h⟩ | ⟨_, _, _, h⟩ | ⟨_, _, _, h⟩ <;>
      rw [h]
    all_goals
      first
      | (show st.nextId ≤ st.nextId
         omega)
      | (show st.nextId ≤ st.nextId + 1
         omega)
  | update i n? e? =>
    show st.nextId ≤ (putUsers st i n? e?).2.nextId
    rcases putUsers_cases st i n? e? with ⟨_, h⟩ | ⟨_, _, h⟩ | ⟨_, _, h⟩ | ⟨_, _, u, _, h⟩ <;>
      rw [h] <;>
      (show st.nextId ≤ st.nextId; omega)
  | delete i =>
    show st.nextId ≤ (deleteUsers st i).2.nextId
    rcases deleteUsers_cases st i with ⟨_, h⟩ | ⟨_, h⟩ | ⟨_, u, rest, _, h⟩ <;> rw [h] <;>
      (show st.nextId ≤ st.nextId; omega)

theorem runFrom_nextId_mono (ops : List Op) (st : AppState) :
    st.nextId ≤ (runFrom st ops).nextId := by
  induction ops generalizing st with
  | nil => exact le_refl _
  | cons op rest ih =>
    exact le_trans (step_nextId_mono st op) (ih (step st op))

/-- Any record present after further operations either shares its id with an
already-present record or carries an id at least the current counter value. -/
theorem runFrom_users_mem (ops : List Op) (st : AppState) :
    ∀ v ∈ (runFrom st ops).users,
      (∃ w ∈ st.users, w.id = v.id) ∨ st.nextId ≤ v.id := by
  induction ops generalizing st with
  | nil => exact fun v hv => Or.inl ⟨v, hv, rfl⟩
  | cons op rest ih =>
    intro v hv
    rcases ih (step st op) v hv with ⟨w, hw, hwid⟩ | hge
    · cases op with
      | create n e =>
        have hw2 : w ∈ (postUsers st n e).2.users := hw
        rcases postUsers_cases st n e with ⟨_, h⟩ | ⟨_, _, h⟩ | ⟨_, _, _, h⟩ | ⟨_, _, _, h⟩ <;>
          rw [h] at hw2
        · exact Or.inl ⟨w, hw2, hwid⟩
        · exact Or.inl ⟨w, hw2, hwid⟩
        · exact Or.inl ⟨w, hw2, hwid⟩
        · rcases List.mem_append.mp hw2 with hmem | hmem
          · exact Or.inl ⟨w, hmem, hwid⟩
          · rw [List.mem_singleton.mp hmem] at hwid
            exact Or.inr (by rw [← hwid])
      | update i n? e? =>
        have hw2 : w ∈ (putUsers st i n? e?).2.users := hw
        rcases putUsers_cases st i n? e? with ⟨_, h⟩ | ⟨_, _, h⟩ | ⟨_, _, h⟩ | ⟨_, _, u, _, h⟩ <;>
          rw [h] at hw2
        · exact Or.inl ⟨w, hw2, hwid⟩
        · exact Or.inl ⟨w, hw2, hwid⟩
        · exact Or.inl ⟨w, hw2, hwid⟩
        · rcases mem_updateFirst hw2 with hmem | ⟨x, hx, _, hwx⟩
          · exact Or.inl ⟨w, hmem, hwid⟩
          · refine Or.inl ⟨x, hx, ?_⟩
            rw [← hwid, hwx]
      | delete i =>
        have hw2 : w ∈ (deleteUsers st i).2.users := hw
        rcases deleteUsers_cases st i with ⟨_, h⟩ | ⟨_, h⟩ | ⟨_, u, rest2, heq, h⟩ <;>
          rw [h] at hw2
        · exact Or.inl ⟨w, hw2, hwid⟩
        · exact Or.inl ⟨w, hw2, hwid⟩
        · have hsub := removeFirstBy_sublist (fun v => v.id == i) st.users
          rw [heq] at hsub
          exact Or.inl ⟨w, hsub.mem hw2, hwid⟩
    · exact Or.inr (le_trans (step_nextId_mono st op) hge)

/-- Once the counter has passed `MAX_USERS`, a create never changes the
collection and always answers a failure envelope. -/
theorem postUsers_exhausted {st : AppState} (h : 999 < st.nextId) (n e : String) :
    (postUsers st n e).2.users = st.users ∧ (postUsers st n e).1.success = false := by
  rcases postUsers_cases st n e with ⟨_, hc⟩ | ⟨_, _, hc⟩ | ⟨_, _, _, hc⟩ | ⟨_, _, h3, hc⟩
  · rw [hc]; exact ⟨rfl, rfl⟩
  · rw [hc]; exact ⟨rfl, rfl⟩
  · rw [hc]; exact ⟨rfl, rfl⟩
  · exfalso
    have := (validateId_iff st.nextId).mp h3
    omega

theorem step_exhausted_length {st : AppState} (h : 999 < st.nextId) (op : Op) :
    (step st op).users.length ≤ st.users.length := by
  cases op with
  | create n e =>
    show (postUsers st n e).2.users.length ≤ st.users.length
    rw [(postUsers_exhausted h n e).1]
  | update i n? e? =>
    show (putUsers st i n? e?).2.users.length ≤ st.users.length
    rcases putUsers_cases st i n? e? with ⟨_, hc⟩ | ⟨_, _, hc⟩ | ⟨_, _, hc⟩ | ⟨_, _, u, _, hc⟩ <;>
      rw [hc]
    all_goals
      first
      | exact le_refl _
      | (show (updateFirst st.users i _).length ≤ st.users.length
         rw [updateFirst_length])
  | delete i =>
    show (deleteUsers st i).2.users.length ≤ st.users.length
    rcases deleteUsers_cases st i with ⟨_, hc⟩ | ⟨_, hc⟩ | ⟨_, u, rest, heq, hc⟩ <;> rw [hc]
    all_goals
      first
      | exact le_refl _
      | (have hsub := removeFirstBy_sublist (fun v => v.id == i) st.users
         rw [heq] at hsub
         exact hsub.length_le)

theorem runFrom_exhausted_length {st : AppState} (h : 999 < st.nextId) (ops : List Op) :
    (runFrom st ops).users.length ≤ st.users.length := by
  induction ops generalizing st with
  | nil => exact le_refl _
  | cons op rest ih =>
    have hnext : 999 < (step st op).nextId := lt_of_lt_of_le h (step_nextId_mono st op)
    exact le_trans (ih hnext) (step_exhausted_length h op)

/-! ## Locating and removing a record by id -/

theorem exists_find?_of_mem {l : List User} {id : Int} (h : ∃ u ∈ l, u.id = id) :
    ∃ u, l.find? (fun v => v.id == id) = some u ∧ u.id = id := by
  cases hf : l.find? (fun v => v.id == id) with
  | none =>
    obtain ⟨u, hu, huid⟩ := h
    have := List.find?_eq_none.mp hf u hu
    simp [huid] at this
  | some u =>
    refine ⟨u, rfl, ?_⟩
    have := List.find?_some hf
    simpa using this

theorem removeFirstBy_of_find? {l : List User} {p : User → Bool} {u : User}
    (h : l.find? p = some u) :
    ∃ l₁ l₂, l = l₁ ++ u :: l₂ ∧ (∀ v ∈ l₁, p v = false) ∧
      removeFirstBy p l = (some u, l₁ ++ l₂) := by
  obtain ⟨l₁, l₂, heq, hall, hu⟩ := find?_split h
  refine ⟨l₁, l₂, heq, hall, ?_⟩
  rw [heq]
  exact removeFirstBy_append hall hu

/-- With pairwise-distinct ids, removing the record with a given id leaves no
record with that id. -/
theorem no_id_after_remove {l l₁ l₂ : List User} {u : User} {id : Int}
    (hnodup : l.Pairwise fun a b => a.id ≠ b.id)
    (heq : l = l₁ ++ u :: l₂) (huid : u.id = id) :
    ∀ v ∈ l₁ ++ l₂, v.id ≠ id := by
  rw [heq] at hnodup
  rw [List.pairwise_append] at hnodup
  obtain ⟨h₁, h₂, hmid⟩ := hnodup
  rw [List.pairwise_cons] at h₂
  intro v hv
  rcases List.mem_append.mp hv with hv | hv
  · intro hvid
    exact (hmid v hv u (List.mem_cons_self u l₂)) (hvid.trans huid.symm)
  · intro hvid
    exact (h₂.1 v hv) (huid.trans hvid.symm)

/-! ## Capacity bound along any trace -/

theorem step_length_le {st : AppState} (h : st.users.length ≤ 999) (op : Op) :
    (step st op).users.length ≤ 999 := by
  cases op with
  | create n e =>
    show (postUsers st n e).2.users.length ≤ 999
    rcases postUsers_cases st n e with ⟨_, hc⟩ | ⟨_, _, hc⟩ | ⟨_, _, _, hc⟩ | ⟨hl, _, _, hc⟩ <;>
      rw [hc]
    · exact h
    · exact h
    · exact h
    · have := (hasReachedUserLimit_eq_false_iff st.users).mp hl
      show (st.users ++ [(⟨st.nextId, n, e⟩ : User)]).length ≤ 999
      simp only [List.length_append, List.length_singleton]
      omega
  | update i n? e? =>
    show (putUsers st i n? e?).2.users.length ≤ 999
    rcases putUsers_cases st i n? e? with ⟨_, hc⟩ | ⟨_, _, hc⟩ | ⟨_, _, hc⟩ | ⟨_, _, u, _, hc⟩ <;>
      rw [hc]
    all_goals
      first
      | exact h
      | (show (updateFirst st.users i _).length ≤ 999
         rw [updateFirst_length]
         exact h)
  | delete i =>
    show (deleteUsers st i).2.users.length ≤ 999
    rcases deleteUsers_cases st i with ⟨_, hc⟩ | ⟨_, hc⟩ | ⟨_, u, rest, heq, hc⟩ <;> rw [hc]
    all_goals
      first
      | exact h
      | (have hsub := removeFirstBy_sublist (fun v => v.id == i) st.users
         rw [heq] at hsub
         exact le_trans hsub.length_le h)

theorem runFrom_length_le {st : AppState} (h : st.users.length ≤ 999) (ops : List Op) :
    (runFrom st ops).users.length ≤ 999 := by
  induction ops generalizing st with
  | nil => exact h
  | cons op rest ih => exact ih (step_length_le h op)

/-- The first components of `removeFirstBy` and `find?` agree: `findIndex` +
`splice` removes exactly the record `find` would return. -/
theorem removeFirstBy_fst_eq_find? {α : Type} (p : α → Bool) (l : List α) :
    (removeFirstBy p l).1 = l.find? p := by
  induction l with
  | nil => rfl
  | cons u rest ih =>
    by_cases h : p u = true
    · rw [removeFirstBy, if_pos h, List.find?_cons_of_pos _ h]
    · rw [removeFirstBy, if_neg h,
        List.find?_cons_of_neg _ h]
      exact ih

/-! ## Facts about the concrete full store -/

theorem mk999_length : mk999.length = 999 := by
  rw [mk999, List.length_map, List.length_range]

theorem fullState_users : fullState.users = mk999 := rfl

theorem fullState_full : hasReachedUserLimit fullState.users = true := by
  rw [hasReachedUserLimit_iff, fullState_users, mk999_length]

theorem mem_mk999_first : (⟨1, "user", "u0@example.com"⟩ : User) ∈ mk999 := by
  rw [mk999]
  have h0 : (0 : Nat) ∈ List.range 999 := List.mem_range.mpr (by omega)
  exact List.mem_map.mpr ⟨0, h0, by decide⟩

theorem fullState_email_taken :
    isEmailTaken fullState.users "u0@example.com" none = true :=
  (isEmailTaken_none_iff fullState.users "u0@example.com").mpr
    ⟨⟨1, "user", "u0@example.com"⟩, mem_mk999_first, rfl⟩

/-! ## Claim theorems -/

/-- C9 — Envelope exclusivity: every envelope the response helpers produce has
the success flag and a message; the data field is populated exactly on the
success envelopes (ok, created) and the error detail exactly on the failure
envelopes (notfound, badrequest, conflict, servererror) — never both at once,
for every outcome kind. -/
theorem c9_envelope_exclusivity (p : Payload) (m e : String) :
    ((ok p m).success = true ∧ (ok p m).message = m ∧
      (ok p m).data = some p ∧ (ok p m).error = none) ∧
    ((created p m).success = true ∧ (created p m).message = m ∧
      (created p m).data = some p ∧ (created p m).error = none) ∧
    ((notfound m).success = false ∧ (notfound m).message = m ∧
      (notfound m).data = none ∧ (notfound m).error = some "Resource not found") ∧
    ((badrequest e).success = false ∧ (badrequest e).message = "Bad Request" ∧
      (badrequest e).data = none ∧ (badrequest e).error = some e) ∧
    ((conflict e).success = false ∧ (conflict e).message = "Conflict" ∧
      (conflict e).data = none ∧ (conflict e).error = some e) ∧
    ((servererror e).success = false ∧ (servererror e).message = "Error" ∧
      (servererror e).data = none ∧ (servererror e).error = some e) :=
  ⟨⟨rfl, rfl, rfl, rfl⟩, ⟨rfl, rfl, rfl, rfl⟩, ⟨rfl, rfl, rfl, rfl⟩,
   ⟨rfl, rfl, rfl, rfl⟩, ⟨rfl, rfl, rfl, rfl⟩, ⟨rfl, rfl, rfl, rfl⟩⟩

/-- C2 — Capacity bound: along every operation sequence the collection never
exceeds MAX_USERS = 999 records, and in any state holding exactly 999 records
a create fails with the LimitReached envelope and leaves the state (collection
and counter) entirely unchanged. -/
theorem c2_capacity_bound :
    (∀ ops : List Op, (run ops).users.length ≤ 999) ∧
    (∀ (st : AppState) (n e : String), st.users.length = 999 →
      postUsers st n e =
        (badrequest "Cannot register more users: memory limit reached", st)) := by
  constructor
  · intro ops
    exact runFrom_length_le (by simp [initialState]) ops
  · intro st n e hlen
    exact postUsers_limit n e ((hasReachedUserLimit_iff st.users).mpr (by omega))

/-- C2 witness: the bound evaluated on a one-create trace, and the limit branch
taken at the concrete full store. -/
theorem c2_capacity_bound_witness :
    (run [Op.create "Alice" "alice@example.com"]).users.length ≤ 999 ∧
    postUsers fullState "Bob" "bob@example.com" =
      (badrequest "Cannot register more users: memory limit reached", fullState) :=
  ⟨c2_capacity_bound.1 [Op.create "Alice" "alice@example.com"],
   c2_capacity_bound.2 fullState "Bob" "bob@example.com"
     (by rw [fullState_users, mk999_length])⟩

/-- C4 — Create check ordering and postcondition: capacity is checked before
email uniqueness (a duplicate email in a full store yields the LimitReached
envelope, not EmailConflict), email uniqueness before id allocation (a
duplicate email is answered EmailConflict regardless of the counter), and when
all checks pass the new record is appended and returned in the created
envelope. -/
theorem c4_create_check_order :
    (∀ (st : AppState) (n e : String),
      hasReachedUserLimit st.users = true →
      isEmailTaken st.users e none = true →
      postUsers st n e =
        (badrequest "Cannot register more users: memory limit reached", st) ∧
      (postUsers st n e).1 ≠ conflict "Email already registered") ∧
    (∀ (st : AppState) (n e : String),
      hasReachedUserLimit st.users = false →
      isEmailTaken st.users e none = true →
      postUsers st n e = (conflict "Email already registered", st)) ∧
    (∀ (st : AppState) (n e : String),
      hasReachedUserLimit st.users = false →
      isEmailTaken st.users e none = false →
      validateId st.nextId = true →
      postUsers st n e =
        (created (Payload.user ⟨st.nextId, n, e⟩) "User created successfully",
         ⟨st.users ++ [⟨st.nextId, n, e⟩], st.nextId + 1⟩)) := by
  refine ⟨?_, ?_, ?_⟩
  · intro st n e h1 _h2
    refine ⟨postUsers_limit n e h1, ?_⟩
    rw [postUsers_limit n e h1]
    simp [badrequest, conflict]
  · intro st n e h1 h2
    exact postUsers_conflict n e h1 h2
  · intro st n e h1 h2 h3
    exact postUsers_success n e h1 h2 h3

/-- C4 witness: the ordering evaluated at the concrete full store with a
duplicate email, and the success postcondition on the initial state. -/
theorem c4_create_check_order_witness :
    (postUsers fullState "Bob" "u0@example.com" =
       (badrequest "Cannot register more users: memory limit reached", fullState) ∧
     (postUsers fullState "Bob" "u0@example.com").1 ≠ conflict "Email already registered") ∧
    postUsers ⟨[⟨1, "a", "a@x.y"⟩], 2⟩ "b" "A@X.Y" =
      (conflict "Email already registered", ⟨[⟨1, "a", "a@x.y"⟩], 2⟩) ∧
    postUsers initialState "Alice" "alice@example.com" =
      (created (Payload.user ⟨1, "Alice", "alice@example.com"⟩) "User created successfully",
       ⟨[⟨1, "Alice", "alice@example.com"⟩], 2⟩) :=
  ⟨c4_create_check_order.1 fullState "Bob" "u0@example.com" fullState_full
     fullState_email_taken,
   c4_create_check_order.2.1 ⟨[⟨1, "a", "a@x.y"⟩], 2⟩ "b" "A@X.Y" (by decide) (by decide),
   c4_create_check_order.2.2 initialState "Alice" "alice@example.com"
     (by decide) (by decide) (by decide)⟩

/-- C1 (counterexample) — the claim "every create supplying an email that
lowercase-equals a live record's email is rejected with EmailConflict" fails at
the full store: the duplicate email "u0@example.com" is present, yet the
create is rejected with the LimitReached envelope, not EmailConflict. -/
theorem c1_email_uniqueness_counterexample :
    (∃ u ∈ fullState.users, jsLower u.email = jsLower "u0@example.com") ∧
    postUsers fullState "Bob" "u0@example.com" =
      (badrequest "Cannot register more users: memory limit reached", fullState) ∧
    (postUsers fullState "Bob" "u0@example.com").1 ≠ conflict "Email already registered" := by
  refine ⟨⟨⟨1, "user", "u0@example.com"⟩, mem_mk999_first, rfl⟩,
    postUsers_limit _ _ fullState_full, ?_⟩
  rw [postUsers_limit _ _ fullState_full]
  decide

/-- C1 (amended) — Email uniqueness invariant: along every schema-valid
operation sequence no two records have case-insensitively equal emails; a
create supplying a duplicate email is rejected before any mutation — with
EmailConflict when the store is below capacity, and with LimitReached when the
store is already full (capacity is checked first); an update supplying an
email that lowercase-equals another live record's email is rejected with
EmailConflict before any mutation. -/
theorem c1_email_uniqueness_amended :
    (∀ ops : List Op, (∀ op ∈ ops, opSchemaOk op) →
      (run ops).users.Pairwise fun a b => jsLower a.email ≠ jsLower b.email) ∧
    (∀ (st : AppState) (n e : String),
      hasReachedUserLimit st.users = false →
      (∃ u ∈ st.users, jsLower u.email = jsLower e) →
      postUsers st n e = (conflict "Email already registered", st)) ∧
    (∀ (st : AppState) (n e : String),
      hasReachedUserLimit st.users = true →
      postUsers st n e =
        (badrequest "Cannot register more users: memory limit reached", st)) ∧
    (∀ (st : AppState) (id : Int) (nameOpt : Option String) (e : String) (u : User),
      validateId id = true →
      st.users.find? (fun v => v.id == id) = some u →
      e ≠ "" →
      (∃ v ∈ st.users, jsLower v.email = jsLower e ∧ v.id ≠ id) →
      putUsers st id nameOpt (some e) = (conflict "Email already registered", st)) := by
  refine ⟨?_, ?_, ?_, ?_⟩
  · intro ops hops
    exact (inv_run ops hops).emailsNodup
  · intro st n e h1 h2
    exact postUsers_conflict n e h1 ((isEmailTaken_none_iff st.users e).mpr h2)
  · intro st n e h1
    exact postUsers_limit n e h1
  · intro st id nameOpt e u hv hfind he hex
    have hid0 : id ≠ 0 := by
      have := (validateId_iff id).mp hv
      omega
    have htr : strTruthy (some e) = true := by
      simpa [strTruthy] using he
    have ht : isEmailTaken st.users ((some e).getD "") (some id) = true :=
      (isEmailTaken_some_iff st.users e id hid0).mpr hex
    exact putUsers_conflict nameOpt hv hfind htr ht

/-- C1 (amended) witness: the invariant on a one-create trace; a duplicate
create rejected with EmailConflict below capacity; the full-store rejection;
and a duplicate update rejected with EmailConflict. -/
theorem c1_email_uniqueness_amended_witness :
    ((run [Op.create "Alice" "alice@example.com"]).users.Pairwise
       fun a b => jsLower a.email ≠ jsLower b.email) ∧
    postUsers ⟨[⟨1, "a", "a@x.y"⟩], 2⟩ "b" "A@X.Y" =
      (conflict "Email already registered", ⟨[⟨1, "a", "a@x.y"⟩], 2⟩) ∧
    postUsers fullState "Bob" "bob2@example.com" =
      (badrequest "Cannot register more users: memory limit reached", fullState) ∧
    putUsers ⟨[⟨1, "a", "a@x.y"⟩, ⟨2, "b", "b@x.y"⟩], 3⟩ 2 none (some "a@x.y") =
      (conflict "Email already registered", ⟨[⟨1, "a", "a@x.y"⟩, ⟨2, "b", "b@x.y"⟩], 3⟩) :=
  ⟨c1_email_uniqueness_amended.1 [Op.create "Alice" "alice@example.com"]
     (by
       intro op hop
       rw [List.mem_singleton] at hop
       subst hop
       show "alice@example.com" ≠ ""
       decide),
   c1_email_uniqueness_amended.2.1 ⟨[⟨1, "a", "a@x.y"⟩], 2⟩ "b" "A@X.Y" (by decide)
     ⟨⟨1, "a", "a@x.y"⟩, by decide, by decide⟩,
   c1_email_uniqueness_amended.2.2.1 fullState "Bob" "bob2@example.com" fullState_full,
   c1_email_uniqueness_amended.2.2.2 ⟨[⟨1, "a", "a@x.y"⟩, ⟨2, "b", "b@x.y"⟩], 3⟩ 2 none
     "a@x.y" ⟨2, "b", "b@x.y"⟩ (by decide) (by decide) (by decide)
     ⟨⟨1, "a", "a@x.y"⟩, by decide, by decide, by decide⟩⟩

/-- C3 (counterexample) — the claim "get-by-id with an id outside 1..999 fails
ValidationFailed, not NotFound" fails on the collection-scan variant's GET
route: ids 0 and 1000 pass the route's digits-only pattern, are outside the
valid range, and the route answers the NotFound response (404 Data not found),
not a validation failure. -/
theorem c3_id_range_counterexample :
    validateId 0 = false ∧ validateId 1000 = false ∧
    getByIdRoute [⟨1, "Alice", "alice@example.com"⟩] 0 = VariantResp.dataNotFound ∧
    getByIdRoute [⟨1, "Alice", "alice@example.com"⟩] 1000 = VariantResp.dataNotFound := by
  decide

/-- C3 (amended) — Id range and id-input validation: every id a create ever
assigns satisfies 1 ≤ id ≤ 999 (both at assignment time and in every reachable
collection); update and delete with an out-of-range id fail with the
ValidationFailed envelope (400 Invalid user ID), not NotFound, before touching
the state; the get-by-id route (present only in the collection-scan variant)
performs no range validation and answers NotFound for any id absent from the
collection, out-of-range ids included. -/
theorem c3_id_range_amended :
    (∀ ops : List Op, (∀ op ∈ ops, opSchemaOk op) →
      ∀ u ∈ (run ops).users, 1 ≤ u.id ∧ u.id ≤ 999) ∧
    (∀ (st : AppState) (n e : String) (r : ApiResponse) (st2 : AppState),
      postUsers st n e = (r, st2) → r.code = 201 →
      ∃ u : User, r.data = some (Payload.user u) ∧ 1 ≤ u.id ∧ u.id ≤ 999) ∧
    (∀ (st : AppState) (id : Int) (nameOpt emailOpt : Option String),
      id ≤ 0 ∨ 999 < id →
      putUsers st id nameOpt emailOpt = (badrequest "Invalid user ID", st)) ∧
    (∀ (st : AppState) (id : Int),
      id ≤ 0 ∨ 999 < id →
      deleteUsers st id = (badrequest "Invalid user ID", st)) ∧
    (∀ (c : List User) (id : Int),
      (∀ u ∈ c, u.id ≠ id) →
      getByIdRoute c id = VariantResp.dataNotFound) := by
  refine ⟨?_, ?_, ?_, ?_, ?_⟩
  · intro ops hops u hu
    have h := (inv_run ops hops).idsRange u hu
    omega
  · intro st n e r st2 heq hcode
    rcases postUsers_cases st n e with ⟨_, hc⟩ | ⟨_, _, hc⟩ | ⟨_, _, _, hc⟩ | ⟨_, _, h3, hc⟩ <;>
      rw [heq] at hc
    · exfalso
      have hbad := congrArg (fun p => (p.1).code) hc
      simp only [badrequest] at hbad
      omega
    · exfalso
      have hbad := congrArg (fun p => (p.1).code) hc
      simp only [conflict] at hbad
      omega
    · exfalso
      have hbad := congrArg (fun p => (p.1).code) hc
      simp only [badrequest] at hbad
      omega
    · have hr : r = created (Payload.user ⟨st.nextId, n, e⟩) "User created successfully" :=
        congrArg Prod.fst hc
      have hrange := (validateId_iff st.nextId).mp h3
      refine ⟨⟨st.nextId, n, e⟩, by rw [hr]; rfl, ?_, ?_⟩
      · show 1 ≤ st.nextId
        omega
      · show st.nextId ≤ 999
        omega
  · intro st id nameOpt emailOpt hout
    exact putUsers_invalid id nameOpt emailOpt ((validateId_eq_false_iff id).mpr hout)
  · intro st id hout
    exact deleteUsers_invalid id ((validateId_eq_false_iff id).mpr hout)
  · intro c id hnone
    have hfind : c.find? (fun v => v.id == id) = none :=
      find?_eq_none_of_all fun v hv => by simpa using hnone v hv
    rw [getByIdRoute, svcFindById, hfind]

/-- C3 (amended) witness: id range on a one-create trace and on the concrete
create response; rejection of the out-of-range ids 0 and 1000 by update and
delete; and the scan-variant get route answering NotFound for absent id 7. -/
theorem c3_id_range_amended_witness :
    (1 ≤ (⟨1, "Alice", "alice@example.com"⟩ : User).id ∧
      (⟨1, "Alice", "alice@example.com"⟩ : User).id ≤ 999) ∧
    (∃ u : User,
      (created (Payload.user ⟨1, "Alice", "alice@example.com"⟩)
          "User created successfully").data = some (Payload.user u) ∧
      1 ≤ u.id ∧ u.id ≤ 999) ∧
    putUsers ⟨[⟨1, "a", "a@x.y"⟩], 2⟩ 0 (some "b") none =
      (badrequest "Invalid user ID", ⟨[⟨1, "a", "a@x.y"⟩], 2⟩) ∧
    deleteUsers ⟨[⟨1, "a", "a@x.y"⟩], 2⟩ 1000 =
      (badrequest "Invalid user ID", ⟨[⟨1, "a", "a@x.y"⟩], 2⟩) ∧
    getByIdRoute [⟨1, "a", "a@x.y"⟩] 7 = VariantResp.dataNotFound :=
  ⟨c3_id_range_amended.1 [Op.create "Alice" "alice@example.com"]
     (by
       intro op hop
       rw [List.mem_singleton] at hop
       subst hop
       show "alice@example.com" ≠ ""
       decide)
     ⟨1, "Alice", "alice@example.com"⟩ (by decide),
   c3_id_range_amended.2.1 initialState "Alice" "alice@example.com"
     (created (Payload.user ⟨1, "Alice", "alice@example.com"⟩) "User created successfully")
     ⟨[⟨1, "Alice", "alice@example.com"⟩], 2⟩ (by decide) rfl,
   c3_id_range_amended.2.2.1 ⟨[⟨1, "a", "a@x.y"⟩], 2⟩ 0 (some "b") none (by omega),
   c3_id_range_amended.2.2.2.1 ⟨[⟨1, "a", "a@x.y"⟩], 2⟩ 1000 (by omega),
   c3_id_range_amended.2.2.2.2 [⟨1, "a", "a@x.y"⟩] 7 (by decide)⟩

/-- C5 (counterexample) — the claim "under the collection-scan policy, a
create performed after deleting the record holding the maximum id reassigns
that same id" fails: build ids 1..5 by scan creates, delete 2, 3 and 4, then
delete the max-holder 5 — the next create allocates max([1]) + 1 = 2, not 5. -/
theorem c5_allocation_counterexample :
    (let c1 := (svcCreate [] "u1" "u1@x.y").2
     let c2 := (svcCreate c1 "u2" "u2@x.y").2
     let c3 := (svcCreate c2 "u3" "u3@x.y").2
     let c4 := (svcCreate c3 "u4" "u4@x.y").2
     let c5 := (svcCreate c4 "u5" "u5@x.y").2
     let d2 := (svcDeleteById c5 2).2
     let d3 := (svcDeleteById d2 3).2
     let d4 := (svcDeleteById d3 4).2
     (svcDeleteById d4 5).1 = some ⟨5, "u5", "u5@x.y"⟩ ∧
     (svcCreate (svcDeleteById d4 5).2 "u6" "u6@x.y").1.id = 2 ∧
     ((2 : Int) = 5 → False)) := by
  decide

/-- C5 (amended) — the two id-allocation variants are not observationally
equivalent after deletions: under the monotonic counter of src/app.ts an id
freed by deletion is never assigned again (no later reachable collection
contains it); under the collection-scan policy a freed id can be reassigned —
in particular, when after deleting the max-holder m the remaining maximum is
m - 1 (e.g. consecutively allocated ids), the next create reassigns exactly m
— and on an empty collection the scan policy assigns id 1. -/
theorem c5_allocation_policies_amended :
    (∀ (st : AppState) (id : Int) (u : User) (rest : List User),
      Inv st →
      removeFirstBy (fun v => v.id == id) st.users = (some u, rest) →
      ∀ ops : List Op, ∀ v ∈ (runFrom ⟨rest, st.nextId⟩ ops).users, v.id ≠ id) ∧
    (∀ (c c2 : List User) (m : Int) (u hd : User) (tl : List User) (n e : String),
      svcDeleteById c m = (some u, c2) →
      c2 = hd :: tl →
      tl.foldl (fun a v => max a v.id) hd.id = m - 1 →
      (svcCreate c2 n e).1.id = m) ∧
    (∀ n e : String,
      (svcCreate [] n e).1.id = 1 ∧ (svcCreate [] n e).2 = [⟨1, n, e⟩]) := by
  refine ⟨?_, ?_, ?_⟩
  · intro st id u rest hinv hrem ops v hv hvid
    have hfind : st.users.find? (fun w => w.id == id) = some u := by
      rw [← removeFirstBy_fst_eq_find?, hrem]
    obtain ⟨l₁, l₂, hsplit, _, hrem2⟩ := removeFirstBy_of_find? hfind
    have hrest : rest = l₁ ++ l₂ := by
      rw [hrem] at hrem2
      exact ((Prod.mk.injEq _ _ _ _).mp hrem2.symm |>.2).symm
    have huid : u.id = id := by
      simpa using List.find?_some hfind
    have hnone : ∀ w ∈ rest, w.id ≠ id := by
      rw [hrest]
      exact no_id_after_remove hinv.idsNodup hsplit huid
    rcases runFrom_users_mem ops ⟨rest, st.nextId⟩ v hv with ⟨w, hw, hwid⟩ | hge
    · exact hnone w hw (hwid.trans hvid)
    · have humem : u ∈ st.users := by
        rw [hsplit]
        exact List.mem_append.mpr (Or.inr (List.mem_cons_self u l₂))
      have hlt := hinv.idsLtNext u humem
      rw [huid] at hlt
      rw [hvid] at hge
      have : st.nextId ≤ id := hge
      omega
  · intro c c2 m u hd tl n e _hdel hc2 hmax
    rw [hc2]
    show tl.foldl (fun a v => max a v.id) hd.id + 1 = m
    rw [hmax]
    omega
  · intro n e
    exact ⟨rfl, rfl⟩

/-- C5 (amended) witness: the never-reassigned conclusion instantiated on a
concrete post-delete trace, the scan reassignment on ids 1..2 after deleting
the max-holder 2, and the empty-collection allocation. -/
theorem c5_allocation_policies_amended_witness :
    ((⟨2, "b", "b@x.y"⟩ : User) ∈
        (runFrom ⟨[], 2⟩ [Op.create "b" "b@x.y"]).users → (2 : Int) ≠ 1) ∧
    (svcCreate [⟨1, "u1", "u1@x.y"⟩] "u3" "u3@x.y").1.id = 2 ∧
    (svcCreate [] "d" "d@x.y").1.id = 1 ∧ (svcCreate [] "d" "d@x.y").2 = [⟨1, "d", "d@x.y"⟩] :=
  ⟨fun hm =>
     c5_allocation_policies_amended.1 ⟨[⟨1, "a", "a@x.y"⟩], 2⟩ 1 ⟨1, "a", "a@x.y"⟩ []
       ⟨by decide, by decide, by decide, by decide, by decide⟩ (by decide)
       [Op.create "b" "b@x.y"] ⟨2, "b", "b@x.y"⟩ hm,
   c5_allocation_policies_amended.2.1 [⟨1, "u1", "u1@x.y"⟩, ⟨2, "u2", "u2@x.y"⟩]
     [⟨1, "u1", "u1@x.y"⟩] 2 ⟨2, "u2", "u2@x.y"⟩ ⟨1, "u1", "u1@x.y"⟩ [] "u3" "u3@x.y"
     (by decide) rfl (by decide),
   c5_allocation_policies_amended.2.2 "d" "d@x.y"⟩

/-- C6 — Update partiality (frame condition): for a record present in the
store, an update supplying only a name leaves the record's email equal to its
prior value, an update supplying only an email (that raises no conflict)
leaves the name equal to its prior value, and in both cases the record keeps
its id, every other record is unchanged (same prefix and suffix of the
collection), and the counter is unchanged. -/
theorem c6_update_partiality :
    ∀ (st : AppState) (id : Int) (u : User),
      validateId id = true →
      st.users.find? (fun v => v.id == id) = some u →
      ((∀ n : String,
        ∃ l₁ l₂, st.users = l₁ ++ u :: l₂ ∧
          putUsers st id (some n) none =
            (ok (Payload.user ⟨u.id, n, u.email⟩) "User updated successfully",
             ⟨l₁ ++ ⟨u.id, n, u.email⟩ :: l₂, st.nextId⟩)) ∧
       (∀ e : String, e ≠ "" →
        isEmailTaken st.users e (some id) = false →
        ∃ l₁ l₂, st.users = l₁ ++ u :: l₂ ∧
          putUsers st id none (some e) =
            (ok (Payload.user ⟨u.id, u.name, e⟩) "User updated successfully",
             ⟨l₁ ++ ⟨u.id, u.name, e⟩ :: l₂, st.nextId⟩))) := by
  intro st id u hv hfind
  obtain ⟨l₁, l₂, heq, hall, hu⟩ := find?_split hfind
  constructor
  · intro n
    refine ⟨l₁, l₂, heq, ?_⟩
    rw [putUsers_ok (some n) hv hfind (by simp [strTruthy])]
    rw [heq, updateFirst_append _ hall hu]
    rfl
  · intro e he htaken
    refine ⟨l₁, l₂, heq, ?_⟩
    have hcond : (strTruthy (some e) &&
        isEmailTaken st.users ((some e).getD "") (some id)) = false := by
      show (strTruthy (some e) && isEmailTaken st.users e (some id)) = false
      rw [htaken, Bool.and_false]
    rw [putUsers_ok none hv hfind hcond]
    rw [heq, updateFirst_append _ hall hu]
    rfl

/-- C6 witness: a name-only update on a two-record store keeps the email, and
an email-only update keeps the name, both leaving the other record intact. -/
theorem c6_update_partiality_witness :
    (∃ l₁ l₂,
      ([⟨1, "a", "a@x.y"⟩, ⟨2, "b", "b@x.y"⟩] : List User) = l₁ ++ ⟨1, "a", "a@x.y"⟩ :: l₂ ∧
      putUsers ⟨[⟨1, "a", "a@x.y"⟩, ⟨2, "b", "b@x.y"⟩], 3⟩ 1 (some "Anna") none =
        (ok (Payload.user ⟨1, "Anna", "a@x.y"⟩) "User updated successfully",
         ⟨l₁ ++ ⟨1, "Anna", "a@x.y"⟩ :: l₂, 3⟩)) ∧
    (∃ l₁ l₂,
      ([⟨1, "a", "a@x.y"⟩, ⟨2, "b", "b@x.y"⟩] : List User) = l₁ ++ ⟨1, "a", "a@x.y"⟩ :: l₂ ∧
      putUsers ⟨[⟨1, "a", "a@x.y"⟩, ⟨2, "b", "b@x.y"⟩], 3⟩ 1 none (some "c@x.y") =
        (ok (Payload.user ⟨1, "a", "c@x.y"⟩) "User updated successfully",
         ⟨l₁ ++ ⟨1, "a", "c@x.y"⟩ :: l₂, 3⟩)) :=
  ⟨(c6_update_partiality ⟨[⟨1, "a", "a@x.y"⟩, ⟨2, "b", "b@x.y"⟩], 3⟩ 1 ⟨1, "a", "a@x.y"⟩
      (by decide) (by decide)).1 "Anna",
   (c6_update_partiality ⟨[⟨1, "a", "a@x.y"⟩, ⟨2, "b", "b@x.y"⟩], 3⟩ 1 ⟨1, "a", "a@x.y"⟩
      (by decide) (by decide)).2 "c@x.y" (by decide) (by decide)⟩

/-- C7 — Update self-exclusion and casing preservation: an update whose email
lowercase-matches no record other than the updated one succeeds and stores the
email exactly as submitted (in particular, updating a record to its own
current email in any letter case succeeds); given a valid id bound to an
existing record, the update answers the EmailConflict envelope exactly when a
non-empty email is supplied that lowercase-equals the email of some record
with a different id; and a successful create stores name and email exactly as
submitted. -/
theorem c7_update_self_exclusion_and_casing :
    (∀ (st : AppState) (id : Int) (u : User) (nameOpt : Option String) (e : String),
      validateId id = true →
      st.users.find? (fun v => v.id == id) = some u →
      e ≠ "" →
      (∀ v ∈ st.users, v.id ≠ id → jsLower v.email ≠ jsLower e) →
      ∃ l₁ l₂, st.users = l₁ ++ u :: l₂ ∧
        putUsers st id nameOpt (some e) =
          (ok (Payload.user ⟨u.id, nameOpt.getD u.name, e⟩) "User updated successfully",
           ⟨l₁ ++ ⟨u.id, nameOpt.getD u.name, e⟩ :: l₂, st.nextId⟩)) ∧
    (∀ (st : AppState) (id : Int) (u : User) (nameOpt emailOpt : Option String),
      validateId id = true →
      st.users.find? (fun v => v.id == id) = some u →
      (putUsers st id nameOpt emailOpt = (conflict "Email already registered", st) ↔
        ∃ e, emailOpt = some e ∧ e ≠ "" ∧
          ∃ v ∈ st.users, jsLower v.email = jsLower e ∧ v.id ≠ id)) ∧
    (∀ (st : AppState) (n e : String),
      hasReachedUserLimit st.users = false →
      isEmailTaken st.users e none = false →
      validateId st.nextId = true →
      (postUsers st n e).1.data = some (Payload.user ⟨st.nextId, n, e⟩) ∧
      (postUsers st n e).2.users = st.users ++ [⟨st.nextId, n, e⟩]) := by
  refine ⟨?_, ?_, ?_⟩
  · intro st id u nameOpt e hv hfind he hothers
    obtain ⟨l₁, l₂, heq, hall, hu⟩ := find?_split hfind
    refine ⟨l₁, l₂, heq, ?_⟩
    have hid0 : id ≠ 0 := by
      have := (validateId_iff id).mp hv
      omega
    have htaken : isEmailTaken st.users e (some id) = false := by
      rw [isEmailTaken_some_eq_false_iff st.users e id hid0]
      intro v hvmem hlow
      by_contra hne
      exact hothers v hvmem hne hlow
    have hcond : (strTruthy (some e) &&
        isEmailTaken st.users ((some e).getD "") (some id)) = false := by
      show (strTruthy (some e) && isEmailTaken st.users e (some id)) = false
      rw [htaken, Bool.and_false]
    rw [putUsers_ok nameOpt hv hfind hcond]
    rw [heq, updateFirst_append _ hall hu]
    rfl
  · intro st id u nameOpt emailOpt hv hfind
    constructor
    · intro hconf
      rcases putUsers_cases st id nameOpt emailOpt with
        ⟨hv2, _⟩ | ⟨_, hfind2, _⟩ | ⟨_, hcond, _⟩ | ⟨_, _, u2, _, hc⟩
      · rw [hv] at hv2
        exact absurd hv2 (by simp)
      · rw [hfind] at hfind2
        exact absurd hfind2 (by simp)
      · have hcc : strTruthy emailOpt = true ∧
            isEmailTaken st.users (emailOpt.getD "") (some id) = true := by
          simpa using hcond
        cases hemail : emailOpt with
        | none =>
          rw [hemail] at hcc
          exact absurd hcc.1 (by simp [strTruthy])
        | some e =>
          rw [hemail] at hcc
          have hne : e ≠ "" := by
            have := hcc.1
            simpa [strTruthy] using this
          have hid0 : id ≠ 0 := by
            have := (validateId_iff id).mp hv
            omega
          have ht : isEmailTaken st.users e (some id) = true := hcc.2
          exact ⟨e, rfl, hne, (isEmailTaken_some_iff st.users e id hid0).mp ht⟩
      · exfalso
        rw [hc] at hconf
        have hsucc := congrArg (fun p => (p.1).success) hconf
        simp only [ok, conflict] at hsucc
        exact Bool.noConfusion hsucc
    · rintro ⟨e, rfl, hne, v, hvmem, hlow, hvid⟩
      have hid0 : id ≠ 0 := by
        have := (validateId_iff id).mp hv
        omega
      have htr : strTruthy (some e) = true := by
        simpa [strTruthy] using hne
      have ht : isEmailTaken st.users ((some e).getD "") (some id) = true :=
        (isEmailTaken_some_iff st.users e id hid0).mpr ⟨v, hvmem, hlow, hvid⟩
      exact putUsers_conflict nameOpt hv hfind htr ht
  · intro st n e h1 h2 h3
    rw [postUsers_success n e h1 h2 h3]
    exact ⟨rfl, rfl⟩

/-- C7 witness: updating record 1 to its own email in upper case succeeds and
stores the submitted casing; the conflict iff evaluated on a duplicate email
of record 2; and a create storing the email exactly as submitted. -/
theorem c7_update_self_exclusion_and_casing_witness :
    (∃ l₁ l₂,
      ([⟨1, "a", "a@x.y"⟩, ⟨2, "b", "b@x.y"⟩] : List User) = l₁ ++ ⟨1, "a", "a@x.y"⟩ :: l₂ ∧
      putUsers ⟨[⟨1, "a", "a@x.y"⟩, ⟨2, "b", "b@x.y"⟩], 3⟩ 1 none (some "A@X.Y") =
        (ok (Payload.user ⟨1, "a", "A@X.Y"⟩) "User updated successfully",
         ⟨l₁ ++ ⟨1, "a", "A@X.Y"⟩ :: l₂, 3⟩)) ∧
    (putUsers ⟨[⟨1, "a", "a@x.y"⟩, ⟨2, "b", "b@x.y"⟩], 3⟩ 1 none (some "B@X.Y") =
        (conflict "Email already registered", ⟨[⟨1, "a", "a@x.y"⟩, ⟨2, "b", "b@x.y"⟩], 3⟩) ↔
      ∃ e, (some "B@X.Y" : Option String) = some e ∧ e ≠ "" ∧
        ∃ v ∈ ([⟨1, "a", "a@x.y"⟩, ⟨2, "b", "b@x.y"⟩] : List User),
          jsLower v.email = jsLower e ∧ v.id ≠ 1) ∧
    ((postUsers ⟨[], 1⟩ "Alice" "MiXeD@Case.Org").1.data =
        some (Payload.user ⟨1, "Alice", "MiXeD@Case.Org"⟩) ∧
     (postUsers ⟨[], 1⟩ "Alice" "MiXeD@Case.Org").2.users = [⟨1, "Alice", "MiXeD@Case.Org"⟩]) :=
  ⟨c7_update_self_exclusion_and_casing.1 ⟨[⟨1, "a", "a@x.y"⟩, ⟨2, "b", "b@x.y"⟩], 3⟩ 1
     ⟨1, "a", "a@x.y"⟩ none "A@X.Y" (by decide) (by decide) (by decide) (by decide),
   c7_update_self_exclusion_and_casing.2.1 ⟨[⟨1, "a", "a@x.y"⟩, ⟨2, "b", "b@x.y"⟩], 3⟩ 1
     ⟨1, "a", "a@x.y"⟩ none (some "B@X.Y") (by decide) (by decide),
   c7_update_self_exclusion_and_casing.2.2 ⟨[], 1⟩ "Alice" "MiXeD@Case.Org"
     (by decide) (by decide) (by decide)⟩

/-- C8 — Delete correctness and finality: deleting a present id removes
exactly the first record with that id (prefix and suffix preserved) and
returns that stored record in the success envelope; with pairwise-distinct
ids, a subsequent lookup of the same id finds nothing, and the scan variant's
get route answers the NotFound response after its deleteById succeeds; a
delete for an absent in-range id answers the NotFound envelope and leaves the
state unchanged. -/
theorem c8_delete_correctness_finality :
    (∀ (st : AppState) (id : Int) (u : User),
      validateId id = true →
      st.users.find? (fun v => v.id == id) = some u →
      ∃ l₁ l₂, st.users = l₁ ++ u :: l₂ ∧
        deleteUsers st id =
          (ok (Payload.user u) "User deleted successfully", ⟨l₁ ++ l₂, st.nextId⟩) ∧
        ((st.users.Pairwise fun a b => a.id ≠ b.id) →
          (l₁ ++ l₂).find? (fun v => v.id == id) = none)) ∧
    (∀ (c c2 : List User) (id : Int) (u : User),
      (c.Pairwise fun a b => a.id ≠ b.id) →
      svcDeleteById c id = (some u, c2) →
      getByIdRoute c2 id = VariantResp.dataNotFound) ∧
    (∀ (st : AppState) (id : Int),
      validateId id = true →
      (∀ v ∈ st.users, v.id ≠ id) →
      deleteUsers st id = (notfound "User not found", st)) := by
  refine ⟨?_, ?_, ?_⟩
  · intro st id u hv hfind
    obtain ⟨l₁, l₂, heq, hall, hrem⟩ := removeFirstBy_of_find? hfind
    have huid : u.id = id := by
      simpa using List.find?_some hfind
    refine ⟨l₁, l₂, heq, deleteUsers_ok hv hrem, ?_⟩
    intro hnodup
    exact find?_eq_none_of_all fun v hvmem => by
      simpa using no_id_after_remove hnodup heq huid v hvmem
  · intro c c2 id u hnodup hdel
    have hdel2 : removeFirstBy (fun v => v.id == id) c = (some u, c2) := hdel
    have hfind : c.find? (fun v => v.id == id) = some u := by
      rw [← removeFirstBy_fst_eq_find?, hdel2]
    obtain ⟨l₁, l₂, heq, hall, hrem⟩ := removeFirstBy_of_find? hfind
    have hc2 : c2 = l₁ ++ l₂ := by
      have h2 := hdel2
      rw [hrem] at h2
      exact ((Prod.mk.injEq _ _ _ _).mp h2.symm |>.2)
    have huid : u.id = id := by
      simpa using List.find?_some hfind
    have hnone : (l₁ ++ l₂).find? (fun v => v.id == id) = none :=
      find?_eq_none_of_all fun v hvmem => by
        simpa using no_id_after_remove hnodup heq huid v hvmem
    rw [hc2, getByIdRoute, svcFindById, hnone]
  · intro st id hv hnone
    refine deleteUsers_notfound hv (removeFirstBy_none ?_)
    intro v hvmem
    simpa using hnone v hvmem

/-- C8 witness: delete id 1 on a two-record store returns the stored record
and keeps record 2; the lookup is then empty; the scan variant answers
NotFound after deleting id 2; and deleting absent id 7 answers NotFound with
the state unchanged. -/
theorem c8_delete_correctness_finality_witness :
    (∃ l₁ l₂,
      ([⟨1, "a", "a@x.y"⟩, ⟨2, "b", "b@x.y"⟩] : List User) = l₁ ++ ⟨1, "a", "a@x.y"⟩ :: l₂ ∧
      deleteUsers ⟨[⟨1, "a", "a@x.y"⟩, ⟨2, "b", "b@x.y"⟩], 3⟩ 1 =
        (ok (Payload.user ⟨1, "a", "a@x.y"⟩) "User deleted successfully",
         ⟨l₁ ++ l₂, 3⟩) ∧
      ((([⟨1, "a", "a@x.y"⟩, ⟨2, "b", "b@x.y"⟩] : List User).Pairwise
          fun a b => a.id ≠ b.id) →
        (l₁ ++ l₂).find? (fun v => v.id == 1) = none)) ∧
    getByIdRoute (svcDeleteById [⟨1, "a", "a@x.y"⟩, ⟨2, "b", "b@x.y"⟩] 2).2 2 =
      VariantResp.dataNotFound ∧
    deleteUsers ⟨[⟨1, "a", "a@x.y"⟩], 2⟩ 7 =
      (notfound "User not found", ⟨[⟨1, "a", "a@x.y"⟩], 2⟩) :=
  ⟨c8_delete_correctness_finality.1 ⟨[⟨1, "a", "a@x.y"⟩, ⟨2, "b", "b@x.y"⟩], 3⟩ 1
     ⟨1, "a", "a@x.y"⟩ (by decide) (by decide),
   c8_delete_correctness_finality.2.1 [⟨1, "a", "a@x.y"⟩, ⟨2, "b", "b@x.y"⟩]
     [⟨1, "a", "a@x.y"⟩] 2 ⟨2, "b", "b@x.y"⟩ (by decide) (by decide),
   c8_delete_correctness_finality.2.2 ⟨[⟨1, "a", "a@x.y"⟩], 2⟩ 7 (by decide) (by decide)⟩

/-- C10 (counterexample) — the claim "once 999 ids have been allocated, every
subsequent create fails with the id-exceeds-maximum validation error" fails:
with the counter at 1000 (999 ids consumed), one live record and free
capacity, a create supplying that record's email is rejected with the
EmailConflict envelope, not the id-exceeds-maximum error (the email check runs
before the id check). -/
theorem c10_exhaustion_counterexample :
    (999 : Int) < (⟨[⟨1, "a", "a@x.y"⟩], 1000⟩ : AppState).nextId ∧
    (⟨[⟨1, "a", "a@x.y"⟩], 1000⟩ : AppState).users.length < 999 ∧
    (postUsers ⟨[⟨1, "a", "a@x.y"⟩], 1000⟩ "b" "a@x.y").1 =
      conflict "Email already registered" ∧
    (postUsers ⟨[⟨1, "a", "a@x.y"⟩], 1000⟩ "b" "a@x.y").1 ≠
      badrequest "User ID exceeds maximum allowed value" := by
  decide

/-- C10 (amended) — Id-counter exhaustion is permanent: the counter never
decreases under any operation; a create that passes the capacity and
email-uniqueness checks consumes a counter value even when it is then
rejected by the id check; once the counter exceeds 999, every create inserts
nothing and answers a failure envelope — with the id-exceeds-maximum
validation error whenever the capacity and email checks pass (in particular
on an emptied store) — and no sequence of further operations can ever grow
the collection again for the life of the process. -/
theorem c10_counter_exhaustion_amended :
    (∀ (st : AppState) (op : Op), st.nextId ≤ (step st op).nextId) ∧
    (∀ (st : AppState) (n e : String),
      hasReachedUserLimit st.users = false →
      isEmailTaken st.users e none = false →
      (postUsers st n e).2.nextId = st.nextId + 1) ∧
    (∀ (st : AppState) (n e : String), 999 < st.nextId →
      (postUsers st n e).2.users = st.users ∧ (postUsers st n e).1.success = false) ∧
    (∀ (st : AppState) (n e : String), 999 < st.nextId →
      hasReachedUserLimit st.users = false →
      isEmailTaken st.users e none = false →
      postUsers st n e =
        (badrequest "User ID exceeds maximum allowed value", ⟨st.users, st.nextId + 1⟩)) ∧
    (∀ (st : AppState) (ops : List Op), 999 < st.nextId →
      (runFrom st ops).users.length ≤ st.users.length) := by
  refine ⟨?_, ?_, ?_, ?_, ?_⟩
  · exact step_nextId_mono
  · intro st n e h1 h2
    by_cases h3 : validateId st.nextId = true
    · rw [postUsers_success n e h1 h2 h3]
    · replace h3 : validateId st.nextId = false := by simpa using h3
      rw [postUsers_idfail n e h1 h2 h3]
  · intro st n e h
    exact postUsers_exhausted h n e
  · intro st n e h h1 h2
    have h3 : validateId st.nextId = false :=
      (validateId_eq_false_iff st.nextId).mpr (Or.inr h)
    exact postUsers_idfail n e h1 h2 h3
  · intro st ops h
    exact runFrom_exhausted_length h ops

/-- C10 (amended) witness: the monotone counter on a concrete step, the
counter consumed by a rejected create on the emptied store with the counter at
1000, the failure with nothing inserted, and the length bound after a further
create. -/
theorem c10_counter_exhaustion_amended_witness :
    (⟨[], 5⟩ : AppState).nextId ≤ (step ⟨[], 5⟩ (Op.create "a" "a@x.y")).nextId ∧
    (postUsers ⟨[], 1000⟩ "a" "a@x.y").2.nextId = 1000 + 1 ∧
    ((postUsers ⟨[], 1000⟩ "a" "a@x.y").2.users = ([] : List User) ∧
     (postUsers ⟨[], 1000⟩ "a" "a@x.y").1.success = false) ∧
    postUsers ⟨[], 1000⟩ "a" "a@x.y" =
      (badrequest "User ID exceeds maximum allowed value", ⟨[], 1000 + 1⟩) ∧
    (runFrom ⟨[], 1000⟩ [Op.create "b" "b@x.y"]).users.length ≤
      (⟨[], 1000⟩ : AppState).users.length :=
  ⟨c10_counter_exhaustion_amended.1 ⟨[], 5⟩ (Op.create "a" "a@x.y"),
   c10_counter_exhaustion_amended.2.1 ⟨[], 1000⟩ "a" "a@x.y" (by decide) (by decide),
   c10_counter_exhaustion_amended.2.2.1 ⟨[], 1000⟩ "a" "a@x.y" (by decide),
   c10_counter_exhaustion_amended.2.2.2.1 ⟨[], 1000⟩ "a" "a@x.y" (by decide) (by decide)
     (by decide),
   c10_counter_exhaustion_amended.2.2.2.2 ⟨[], 1000⟩ [Op.create "b" "b@x.y"] (by decide)⟩

end Apirest
